import Mathlib

/-!
Verification of the minimal YAML-subset parser and the page-generation
driver in `build.py` of the portfolio static-site build tool.

The Python functions are shallowly embedded as executable Lean functions:

* `_parse_scalar`, `_split_array`, `_parse_block`, `_parse_list`,
  `parse_yaml` model the parser (the recursive loops take an explicit
  `fuel` argument so that every definition is structural; `parse_yaml`
  supplies a fuel that is proved sufficient, see the stability theorems);
* `generate_page`, `load_template`, `is_manually_managed` model the
  driver, with the filesystem as an association list of paths to
  contents and side effects reified in an `Effect` trace.
-/

namespace Build

/-- Whitespace characters stripped by Python `str.strip()` (ASCII range). -/
def isPySpace (c : Char) : Bool :=
  c == ' ' || c == '\t' || c == '\n' || c == '\r' ||
  c == Char.ofNat 11 || c == Char.ofNat 12

/-- Python `str.lstrip()`. -/
def pyLStrip (s : String) : String :=
  ⟨s.toList.dropWhile isPySpace⟩

/-- Python `str.strip()`. -/
def pyStrip (s : String) : String :=
  ⟨((s.toList.dropWhile isPySpace).reverse.dropWhile isPySpace).reverse⟩

/-- Model of `_get_indent(line)`: `len(line) - len(line.lstrip())`, the number of
leading whitespace characters. -/
def _get_indent (line : String) : Nat :=
  (line.toList.takeWhile isPySpace).length

/-- The single-quote character `0x27`. -/
def squote : Char := Char.ofNat 39

/-- The double-quote character `0x22`. -/
def dquote : Char := Char.ofNat 34

/-- Python `s.startswith(pre)`. -/
def pyStartsWith (s pre : String) : Bool :=
  pre.toList.isPrefixOf s.toList

/-- Python `s.endswith(suf)`. -/
def pyEndsWith (s suf : String) : Bool :=
  suf.toList.isSuffixOf s.toList

/-- Python `s[n:]` for a nonnegative index. -/
def pyDrop (s : String) (n : Nat) : String :=
  ⟨s.toList.drop n⟩

/-- Python `s[:-n]` (drop the last `n` characters). -/
def pyDropRight (s : String) (n : Nat) : String :=
  ⟨s.toList.take (s.toList.length - n)⟩

/-- Python `text.split(sep)` for a single-character separator,
accumulating the current fragment in reverse. -/
def pySplitAux (sep : Char) : List Char → List Char → List String
  | [], acc => [⟨acc.reverse⟩]
  | c :: cs, acc =>
    if c = sep then ⟨acc.reverse⟩ :: pySplitAux sep cs []
    else pySplitAux sep cs (c :: acc)

/-- Python `text.split('\n')`. -/
def pySplitLines (text : String) : List String :=
  pySplitAux '\n' text.toList []

/-- The value tree produced by the parser: Python `None`, `bool`, `str`,
`list`, and (insertion-ordered) `dict`. -/
inductive Value where
  | null : Value
  | bool (b : Bool) : Value
  | str (s : String) : Value
  | seq (items : List Value) : Value
  | map (entries : List (String × Value)) : Value
deriving Repr

/-- Python 3.7+ `dict` assignment `d[k] = v`: update the value in place
if the key exists (keeping its position), otherwise append. -/
def insertKV : List (String × Value) → String → Value → List (String × Value)
  | [], k, v => [(k, v)]
  | (k', v') :: rest, k, v =>
    if k' = k then (k', v) :: rest else (k', v') :: insertKV rest k v

/-- Python `d.get(k)` as an option. -/
def lookupKV : List (String × Value) → String → Option Value
  | [], _ => none
  | (k', v') :: rest, k => if k' = k then some v' else lookupKV rest k

/-- The scan of `_split_array`: character-by-character, tracking the
active quote character; a comma outside a quote ends the current
fragment; at the end the final fragment is kept only if non-blank.
(The current fragment is carried as its character list.) -/
def splitAux : List String → List Char → Option Char → List Char → List String
  | items, current, _, [] =>
    if pyStrip ⟨current⟩ = "" then items else items ++ [⟨current⟩]
  | items, current, inQuote, ch :: rest =>
    if (ch = dquote ∨ ch = squote) ∧ inQuote = none then
      splitAux items (current ++ [ch]) (some ch) rest
    else if some ch = inQuote then
      splitAux items (current ++ [ch]) none rest
    else if ch = ',' ∧ inQuote = none then
      splitAux (items ++ [⟨current⟩]) [] inQuote rest
    else
      splitAux items (current ++ [ch]) inQuote rest

/-- Model of `_split_array(s)`: split comma-separated values, respecting quotes. -/
def _split_array (s : String) : List String :=
  splitAux [] [] none s.toList

/-- The regex `^([^:]+?):\s*(.*)` applied with `re.match` to a trimmed
line, with both groups subsequently stripped: succeeds iff the text has
a colon at position ≥ 1; the key is the (stripped) text before the
first colon, the value the (stripped) text after it. -/
def keyVal (t : String) : Option (String × String) :=
  match t.toList.findIdx? (· = ':') with
  | none => none
  | some 0 => none
  | some p => some (pyStrip ⟨t.toList.take p⟩, pyStrip ⟨t.toList.drop (p + 1)⟩)

/-- Model of `_parse_scalar(val)`: classify a trimmed fragment.  The recursion on
inline-array elements is driven by `fuel`; each nesting level removes at
least the two brackets, so `val.length + 1` fuel always suffices. -/
def _parse_scalar : Nat → String → Value
  | 0, v => .str (pyStrip v)
  | fuel + 1, v0 =>
    let v := pyStrip v0
    if v = "" then .str ""
    else if v = "true" ∨ v = "True" then .bool true
    else if v = "false" ∨ v = "False" then .bool false
    else if v = "null" ∨ v = "~" then .null
    else if (pyStartsWith v ⟨[dquote]⟩ ∧ pyEndsWith v ⟨[dquote]⟩) ∨
            (pyStartsWith v ⟨[squote]⟩ ∧ pyEndsWith v ⟨[squote]⟩) then
      .str (pyDropRight (pyDrop v 1) 1)
    else if pyStartsWith v "[" ∧ pyEndsWith v "]" then
      .seq ((_split_array (pyDropRight (pyDrop v 1) 1)).map (_parse_scalar fuel))
    else .str v

/-- The function `_parse_scalar` with its canonical (always sufficient) fuel. -/
def parseScalar (v : String) : Value :=
  _parse_scalar (v.length + 1) v

/-- The look-ahead loop `ni = i + 1; while ni < len(lines) and not
lines[ni].strip(): ni += 1` (skips blank lines only, not comments);
structural on its own fuel, for which `lines.length` always suffices. -/
def skipBlanks : Nat → List String → Nat → Nat
  | 0, _, ni => ni
  | fuel + 1, lines, ni =>
    if ni < lines.length ∧ pyStrip (lines.getD ni "") = "" then
      skipBlanks fuel lines (ni + 1)
    else ni

mutual

/-- The `while` loop of `_parse_block(lines, start, parent_indent)` with
the accumulated dict `acc`; returns the produced value (the dict, or the
list when a dash line is reached) together with the next line index. -/
def _parse_block_loop (fuel : Nat) (lines : List String) (i : Nat)
    (parentIndent : Int) (acc : List (String × Value)) : Value × Nat :=
  match fuel with
  | 0 => (.map acc, i)
  | fuel + 1 =>
    if i < lines.length then
      let line := lines.getD i ""
      let trimmed := pyStrip line
      if trimmed = "" ∨ pyStartsWith trimmed "#" then
        _parse_block_loop fuel lines (i + 1) parentIndent acc
      else
        let indent := _get_indent line
        if (indent : Int) ≤ parentIndent then (.map acc, i)
        else if pyStartsWith trimmed "- " then
          _parse_list_loop fuel lines i indent []
        else
          match keyVal trimmed with
          | none => _parse_block_loop fuel lines (i + 1) parentIndent acc
          | some (key, val) =>
            if val = "" then
              let ni := skipBlanks lines.length lines (i + 1)
              if ni < lines.length then
                let niIndent := _get_indent (lines.getD ni "")
                if indent < niIndent then
                  if pyStartsWith (pyStrip (lines.getD ni "")) "- " then
                    let r := _parse_list_loop fuel lines ni niIndent []
                    _parse_block_loop fuel lines r.2 parentIndent
                      (insertKV acc key r.1)
                  else
                    let r := _parse_block_loop fuel lines ni (indent : Int) []
                    _parse_block_loop fuel lines r.2 parentIndent
                      (insertKV acc key r.1)
                else
                  _parse_block_loop fuel lines (i + 1) parentIndent
                    (insertKV acc key (.str ""))
              else
                _parse_block_loop fuel lines (i + 1) parentIndent
                  (insertKV acc key (.str ""))
            else
              _parse_block_loop fuel lines (i + 1) parentIndent
                (insertKV acc key (parseScalar val))
    else (.map acc, i)

/-- The `while` loop of `_parse_list(lines, start, list_indent)` with the
accumulated list `acc`. -/
def _parse_list_loop (fuel : Nat) (lines : List String) (i : Nat)
    (listIndent : Nat) (acc : List Value) : Value × Nat :=
  match fuel with
  | 0 => (.seq acc, i)
  | fuel + 1 =>
    if i < lines.length then
      let line := lines.getD i ""
      let trimmed := pyStrip line
      if trimmed = "" ∨ pyStartsWith trimmed "#" then
        _parse_list_loop fuel lines (i + 1) listIndent acc
      else
        let indent := _get_indent line
        if indent < listIndent then (.seq acc, i)
        else if listIndent < indent ∧ ¬ pyStartsWith trimmed "- " then
          _parse_list_loop fuel lines (i + 1) listIndent acc
        else if pyStartsWith trimmed "- " then
          let content := pyStrip (pyDrop trimmed 2)
          match keyVal content with
          | some (k, v) =>
            let r := _collect_item fuel lines (i + 1) indent [(k, parseScalar v)]
            _parse_list_loop fuel lines r.2 listIndent (acc ++ [.map r.1])
          | none =>
            _parse_list_loop fuel lines (i + 1) listIndent
              (acc ++ [parseScalar content])
        else (.seq acc, i)
    else (.seq acc, i)

/-- The inner `j` loop of `_parse_list`: collect `key: value` siblings
indented deeper than the dash line into the current item `obj`. -/
def _collect_item (fuel : Nat) (lines : List String) (j : Nat)
    (dashIndent : Nat) (obj : List (String × Value)) :
    List (String × Value) × Nat :=
  match fuel with
  | 0 => (obj, j)
  | fuel + 1 =>
    if j < lines.length then
      let sub := lines.getD j ""
      let st := pyStrip sub
      if st = "" ∨ pyStartsWith st "#" then
        _collect_item fuel lines (j + 1) dashIndent obj
      else
        let si := _get_indent sub
        if si ≤ dashIndent then (obj, j)
        else if pyStartsWith st "- " then (obj, j)
        else
          match keyVal st with
          | none => _collect_item fuel lines (j + 1) dashIndent obj
          | some (sk, sv) =>
            if sv = "" then
              let nj := skipBlanks lines.length lines (j + 1)
              if nj < lines.length ∧ si < _get_indent (lines.getD nj "") ∧
                  pyStartsWith (pyStrip (lines.getD nj "")) "- " then
                let r := _parse_list_loop fuel lines nj
                  (_get_indent (lines.getD nj "")) []
                _collect_item fuel lines r.2 dashIndent (insertKV obj sk r.1)
              else
                _collect_item fuel lines (j + 1) dashIndent
                  (insertKV obj sk (.str ""))
            else
              _collect_item fuel lines (j + 1) dashIndent
                (insertKV obj sk (parseScalar sv))
    else (obj, j)

end

/-- Model of `_parse_block(lines, start, parent_indent)` (with explicit fuel). -/
def _parse_block (fuel : Nat) (lines : List String) (start : Nat)
    (parentIndent : Int) : Value × Nat :=
  _parse_block_loop fuel lines start parentIndent []

/-- Model of `_parse_list(lines, start, list_indent)` (with explicit fuel). -/
def _parse_list (fuel : Nat) (lines : List String) (start : Nat)
    (listIndent : Nat) : Value × Nat :=
  _parse_list_loop fuel lines start listIndent []

/-- The canonical fuel for parsing `n` lines; proved sufficient by the
stability theorems below. -/
def parseFuel (n : Nat) : Nat := 2 * (n + 1) + 1

/-- Model of `parse_yaml(text)` run with an arbitrary fuel. -/
def parse_yamlF (fuel : Nat) (text : String) : Value :=
  (_parse_block fuel (pySplitLines text) 0 (-1)).1

/-- Model of `parse_yaml(text)`: split on newlines and parse the root block with
parent indent `-1`. -/
def parse_yaml (text : String) : Value :=
  parse_yamlF (parseFuel (pySplitLines text).length) text

/-- The loop `_parse_block_loop` run with the canonical fuel for its line list. -/
def parseBlockRun (lines : List String) (i : Nat) (parentIndent : Int)
    (acc : List (String × Value)) : Value × Nat :=
  _parse_block_loop (parseFuel lines.length) lines i parentIndent acc

/-- The loop `_parse_list_loop` run with the canonical fuel for its line list. -/
def parseListRun (lines : List String) (i : Nat) (listIndent : Nat)
    (acc : List Value) : Value × Nat :=
  _parse_list_loop (parseFuel lines.length) lines i listIndent acc

/-! ### The page-generation driver

The filesystem is an association list from paths to file contents;
directory creation, file writes and `print` output are reified as an
`Effect` trace.  A Python `AttributeError` (calling `.startswith` on a
non-string) is modelled by `Except.error`. -/

/-- A side effect performed by `generate_page`. -/
inductive Effect where
  | makedirs (dir : String) : Effect
  | writeFile (path content : String) : Effect
  | msg (s : String) : Effect
deriving Repr, DecidableEq

/-- Lookup of a file's contents by path. -/
def lookupFile : List (String × String) → String → Option String
  | [], _ => none
  | (p, c) :: rest, path => if p = path then some c else lookupFile rest path

/-- Does `pat` occur as a contiguous substring (Python `pat in s`)? -/
def containsSubAux (pat : List Char) : List Char → Bool
  | [] => pat.isEmpty
  | c :: cs => pat.isPrefixOf (c :: cs) || containsSubAux pat cs

/-- Python `pat in s` for strings. -/
def containsSub (s pat : String) : Bool :=
  containsSubAux pat.toList s.toList

/-- Model of `os.path.join(a, b)` for POSIX paths (the two-argument form used by
the script). -/
def pyJoin (a b : String) : String :=
  if pyStartsWith b "/" then b
  else if a = "" ∨ pyEndsWith a "/" then a ++ b
  else a ++ "/" ++ b

/-- Python `s.strip('/')`: remove leading and trailing slash characters. -/
def stripSlashes (s : String) : String :=
  ⟨((s.toList.dropWhile (· = '/')).reverse.dropWhile (· = '/')).reverse⟩

/-- One replacement step list of Python `s.replace(pat, rep)` (leftmost,
non-overlapping); `pat` is nonempty at every call site, and the fuel
`s.length` then always suffices. -/
def replaceAux (fuel : Nat) (pat rep : List Char) : List Char → List Char
  | [] => []
  | c :: cs =>
    match fuel with
    | 0 => c :: cs
    | fuel + 1 =>
      if pat.isPrefixOf (c :: cs) then
        rep ++ replaceAux fuel pat rep ((c :: cs).drop pat.length)
      else c :: replaceAux fuel pat rep cs

/-- Python `s.replace(pat, rep)`. -/
def pyReplace (s pat rep : String) : String :=
  ⟨replaceAux s.toList.length pat.toList rep.toList s.toList⟩

/-- Python truthiness of a parsed value (`not link`). -/
def pyTruthy : Value → Bool
  | .null => false
  | .bool b => b
  | .str s => !(s = "")
  | .seq items => !items.isEmpty
  | .map entries => !entries.isEmpty

/-- Python `str()` of a parsed value as used in the f-string for the
title (container reprs are approximated; no verified claim depends on
them). -/
def pyToStr : Value → String
  | .str s => s
  | .bool true => "True"
  | .bool false => "False"
  | .null => "None"
  | .seq _ => "[...]"
  | .map _ => "\x7b...\x7d"

/-- Model of `item.get(key, default)` on a parsed mapping. -/
def pyGet (item : List (String × Value)) (key : String) (default : Value) :
    Value :=
  (lookupKV item key).getD default

/-- Model of `load_template(name)`: read `TEMPLATES_DIR/<name>.html` if present. -/
def load_template (fs : List (String × String)) (repoRoot name : String) :
    Option String :=
  lookupFile fs (pyJoin (pyJoin repoRoot "_templates") (name ++ ".html"))

/-- Model of `is_manually_managed(directory)`: the first 500 characters of
`directory/index.html` contain the manual-management marker. -/
def is_manually_managed (fs : List (String × String)) (dir : String) : Bool :=
  match lookupFile fs (pyJoin dir "index.html") with
  | none => false
  | some content =>
    containsSub ⟨content.toList.take 500⟩ "<!-- managed: manual -->"

/-- Model of `generate_page(item, template_name)`: returns the generated file's
path (or `none` for a skipped item) together with the performed
effects; `.error` models the `AttributeError` raised when `link` is a
truthy non-string. -/
def generate_page (fs : List (String × String)) (repoRoot : String)
    (item : List (String × Value)) (templateName : String) :
    Except String (Option String × List Effect) :=
  let link := pyGet item "link" (.str "")
  if pyTruthy link = false then .ok (none, [])
  else
    match link with
    | .str s =>
      if pyStartsWith s "/" = false then .ok (none, [])
      else
        let dirName := stripSlashes s
        let targetDir := pyJoin repoRoot dirName
        let targetFile := pyJoin targetDir "index.html"
        if is_manually_managed fs targetDir then
          .ok (none, [.msg ("  SKIP  " ++ dirName ++ "/ (manually managed)")])
        else
          match load_template fs repoRoot templateName with
          | none =>
            .ok (none, [.msg ("  WARN  No template \"" ++ templateName ++
              "\" found for " ++ dirName ++ "/")])
          | some template =>
            let title := pyToStr (pyGet item "title" (.str "Page"))
            let html := pyReplace template
              "<title>Case Study | Portfolio</title>"
              ("<title>" ++ title ++ " | Portfolio</title>")
            let html := pyReplace html
              "<meta name=\"description\" content=\"A strategic initiative case study.\">"
              ("<meta name=\"description\" content=\"" ++ title ++ "\">")
            .ok (some targetFile,
              [.makedirs targetDir, .writeFile targetFile html,
               .msg ("  BUILD " ++ dirName ++ "/index.html (from " ++
                 templateName ++ " template)")])
    | _ => .error "AttributeError: startswith"

/-! ### Shape lemmas -/

/-- The list loop always produces a `Value.seq`. -/
theorem listLoop_shape (fuel : Nat) : ∀ (lines : List String) (i d : Nat)
    (acc : List Value), ∃ vs, (_parse_list_loop fuel lines i d acc).1 = Value.seq vs := by
  induction fuel with
  | zero => intro lines i d acc; exact ⟨acc, rfl⟩
  | succ fuel ih =>
    intro lines i d acc
    simp only [_parse_list_loop]
    split
    · split
      · exact ih ..
      · split
        · exact ⟨acc, rfl⟩
        · split
          · exact ih ..
          · split
            · split
              · exact ih ..
              · exact ih ..
            · exact ⟨acc, rfl⟩
    · exact ⟨acc, rfl⟩

/-- The block loop always produces a `Value.map` or a `Value.seq`. -/
theorem blockLoop_shape (fuel : Nat) : ∀ (lines : List String) (i : Nat)
    (p : Int) (acc : List (String × Value)),
    (∃ kvs, (_parse_block_loop fuel lines i p acc).1 = Value.map kvs) ∨
    (∃ vs, (_parse_block_loop fuel lines i p acc).1 = Value.seq vs) := by
  induction fuel with
  | zero => intro lines i p acc; exact .inl ⟨acc, rfl⟩
  | succ fuel ih =>
    intro lines i p acc
    simp only [_parse_block_loop]
    split
    · split
      · exact ih ..
      · split
        · exact .inl ⟨acc, rfl⟩
        · split
          · exact .inr (listLoop_shape ..)
          · split
            · exact ih ..
            · split
              · split
                · split
                  · split
                    · exact ih ..
                    · exact ih ..
                  · exact ih ..
                · exact ih ..
              · exact ih ..
    · exact .inl ⟨acc, rfl⟩

/-! ### Forward-progress lemmas: the returned next index never moves
backwards. -/

/-- The blank-line look-ahead never moves backwards. -/
theorem skipBlanks_ge (fuel : Nat) : ∀ (lines : List String) (ni : Nat),
    ni ≤ skipBlanks fuel lines ni := by
  induction fuel with
  | zero => intro lines ni; exact Nat.le_refl ni
  | succ fuel ih =>
    intro lines ni
    simp only [skipBlanks]
    split
    · exact Nat.le_trans (Nat.le_succ ni) (ih lines (ni + 1))
    · exact Nat.le_refl ni

/-- All three parser loops return a next index that is at least the
start index. -/
theorem loops_ge (fuel : Nat) :
    (∀ (lines : List String) (i : Nat) (p : Int) (acc : List (String × Value)),
      i ≤ (_parse_block_loop fuel lines i p acc).2) ∧
    (∀ (lines : List String) (i d : Nat) (acc : List Value),
      i ≤ (_parse_list_loop fuel lines i d acc).2) ∧
    (∀ (lines : List String) (j d : Nat) (obj : List (String × Value)),
      j ≤ (_collect_item fuel lines j d obj).2) := by
  induction fuel with
  | zero =>
    exact ⟨fun _ i _ _ => Nat.le_refl i, fun _ i _ _ => Nat.le_refl i,
      fun _ j _ _ => Nat.le_refl j⟩
  | succ fuel ih =>
    obtain ⟨ihb, ihl, ihc⟩ := ih
    refine ⟨fun lines i p acc => ?_, fun lines i d acc => ?_,
      fun lines j d obj => ?_⟩
    · simp only [_parse_block_loop]
      split
      · split
        · exact Nat.le_trans (Nat.le_succ i) (ihb ..)
        · split
          · exact Nat.le_refl i
          · split
            · exact ihl ..
            · split
              · exact Nat.le_trans (Nat.le_succ i) (ihb ..)
              · split
                · split
                  · split
                    · split
                      · refine Nat.le_trans ?_ (ihb ..)
                        refine Nat.le_trans ?_ (ihl ..)
                        exact Nat.le_trans (Nat.le_succ i) (skipBlanks_ge ..)
                      · refine Nat.le_trans ?_ (ihb ..)
                        refine Nat.le_trans ?_ (ihb ..)
                        exact Nat.le_trans (Nat.le_succ i) (skipBlanks_ge ..)
                    · exact Nat.le_trans (Nat.le_succ i) (ihb ..)
                  · exact Nat.le_trans (Nat.le_succ i) (ihb ..)
                · exact Nat.le_trans (Nat.le_succ i) (ihb ..)
      · exact Nat.le_refl i
    · simp only [_parse_list_loop]
      split
      · split
        · exact Nat.le_trans (Nat.le_succ i) (ihl ..)
        · split
          · exact Nat.le_refl i
          · split
            · exact Nat.le_trans (Nat.le_succ i) (ihl ..)
            · split
              · split
                · refine Nat.le_trans ?_ (ihl ..)
                  exact Nat.le_trans (Nat.le_succ i) (ihc ..)
                · exact Nat.le_trans (Nat.le_succ i) (ihl ..)
              · exact Nat.le_refl i
      · exact Nat.le_refl i
    · simp only [_collect_item]
      split
      · split
        · exact Nat.le_trans (Nat.le_succ j) (ihc ..)
        · split
          · exact Nat.le_refl j
          · split
            · exact Nat.le_refl j
            · split
              · exact Nat.le_trans (Nat.le_succ j) (ihc ..)
              · split
                · split
                  · refine Nat.le_trans ?_ (ihc ..)
                    refine Nat.le_trans ?_ (ihl ..)
                    exact Nat.le_trans (Nat.le_succ j) (skipBlanks_ge ..)
                  · exact Nat.le_trans (Nat.le_succ j) (ihc ..)
                · exact Nat.le_trans (Nat.le_succ j) (ihc ..)
      · exact Nat.le_refl j

/-! ### Fuel-stability: beyond an input-size bound, fuel is irrelevant,
which is exactly termination of the Python loops. -/

/-- Past the end of the line list the block loop is fuel-independent. -/
theorem blockLoop_oob (fuel : Nat) (lines : List String) (i : Nat) (p : Int)
    (acc : List (String × Value)) (h : lines.length ≤ i) :
    _parse_block_loop fuel lines i p acc = (.map acc, i) := by
  cases fuel with
  | zero => rfl
  | succ fuel => simp only [_parse_block_loop, if_neg (Nat.not_lt.mpr h)]

/-- Past the end of the line list the list loop is fuel-independent. -/
theorem listLoop_oob (fuel : Nat) (lines : List String) (i d : Nat)
    (acc : List Value) (h : lines.length ≤ i) :
    _parse_list_loop fuel lines i d acc = (.seq acc, i) := by
  cases fuel with
  | zero => rfl
  | succ fuel => simp only [_parse_list_loop, if_neg (Nat.not_lt.mpr h)]

/-- Past the end of the line list the item collector is fuel-independent. -/
theorem collect_oob (fuel : Nat) (lines : List String) (j d : Nat)
    (obj : List (String × Value)) (h : lines.length ≤ j) :
    _collect_item fuel lines j d obj = (obj, j) := by
  cases fuel with
  | zero => rfl
  | succ fuel => simp only [_collect_item, if_neg (Nat.not_lt.mpr h)]

/-- All three loops compute the same result under any two fuels that both
dominate the measure `2 * (lines.length + 1 - index) (+ 1)`; in other
words the recursion terminates within that bound. -/
theorem loops_stable (m : Nat) :
    (∀ (lines : List String) (i : Nat) (p : Int) (acc : List (String × Value))
      (f g : Nat), 2 * (lines.length + 1 - i) + 1 ≤ m →
      2 * (lines.length + 1 - i) + 1 ≤ f → 2 * (lines.length + 1 - i) + 1 ≤ g →
      _parse_block_loop f lines i p acc = _parse_block_loop g lines i p acc) ∧
    (∀ (lines : List String) (i d : Nat) (acc : List Value) (f g : Nat),
      2 * (lines.length + 1 - i) ≤ m →
      2 * (lines.length + 1 - i) ≤ f → 2 * (lines.length + 1 - i) ≤ g →
      _parse_list_loop f lines i d acc = _parse_list_loop g lines i d acc) ∧
    (∀ (lines : List String) (j d : Nat) (obj : List (String × Value))
      (f g : Nat), 2 * (lines.length + 1 - j) ≤ m →
      2 * (lines.length + 1 - j) ≤ f → 2 * (lines.length + 1 - j) ≤ g →
      _collect_item f lines j d obj = _collect_item g lines j d obj) := by
  induction m using Nat.strong_induction_on with
  | _ m IH =>
  refine ⟨fun lines i p acc f g hm hf hg => ?_,
    fun lines i d acc f g hm hf hg => ?_,
    fun lines j d obj f g hm hf hg => ?_⟩
  · rcases Nat.lt_or_ge i lines.length with hi | hi
    case inr => rw [blockLoop_oob f lines i p acc hi, blockLoop_oob g lines i p acc hi]
    have hLi : lines.length + 1 - i = lines.length - i + 1 := by omega
    cases f with
    | zero => omega
    | succ f =>
    cases g with
    | zero => omega
    | succ g =>
    simp only [_parse_block_loop, if_pos hi]
    split
    · exact (IH (2 * (lines.length + 1 - (i + 1)) + 1) (by omega)).1
        lines (i + 1) p acc f g (Nat.le_refl _) (by omega) (by omega)
    · split
      · rfl
      · split
        · exact (IH (2 * (lines.length + 1 - i)) (by omega)).2.1
            lines i _ [] f g (Nat.le_refl _) (by omega) (by omega)
        · split
          · exact (IH (2 * (lines.length + 1 - (i + 1)) + 1) (by omega)).1
              lines (i + 1) p acc f g (Nat.le_refl _) (by omega) (by omega)
          · split
            · split
              · have hni : i + 1 ≤ skipBlanks lines.length lines (i + 1) :=
                  skipBlanks_ge ..
                split
                · split
                  · have hr : _parse_list_loop f lines
                        (skipBlanks lines.length lines (i + 1))
                        (_get_indent (lines.getD
                          (skipBlanks lines.length lines (i + 1)) "")) [] =
                      _parse_list_loop g lines
                        (skipBlanks lines.length lines (i + 1))
                        (_get_indent (lines.getD
                          (skipBlanks lines.length lines (i + 1)) "")) [] :=
                      (IH (2 * (lines.length + 1 -
                          (skipBlanks lines.length lines (i + 1)))) (by omega)).2.1
                        lines _ _ [] f g (Nat.le_refl _) (by omega) (by omega)
                    rw [hr]
                    have hr2 : skipBlanks lines.length lines (i + 1) ≤
                        (_parse_list_loop g lines
                          (skipBlanks lines.length lines (i + 1))
                          (_get_indent (lines.getD
                            (skipBlanks lines.length lines (i + 1)) "")) []).2 :=
                      (loops_ge g).2.1 ..
                    exact (IH (2 * (lines.length + 1 - (i + 1)) + 1) (by omega)).1
                      lines _ p _ f g (by omega) (by omega) (by omega)
                  · have hr : _parse_block_loop f lines
                        (skipBlanks lines.length lines (i + 1))
                        (_get_indent (lines.getD i "") : Int) [] =
                      _parse_block_loop g lines
                        (skipBlanks lines.length lines (i + 1))
                        (_get_indent (lines.getD i "") : Int) [] :=
                      (IH (2 * (lines.length + 1 -
                          (skipBlanks lines.length lines (i + 1))) + 1) (by omega)).1
                        lines _ _ [] f g (Nat.le_refl _) (by omega) (by omega)
                    rw [hr]
                    have hr2 : skipBlanks lines.length lines (i + 1) ≤
                        (_parse_block_loop g lines
                          (skipBlanks lines.length lines (i + 1))
                          (_get_indent (lines.getD i "") : Int) []).2 :=
                      (loops_ge g).1 ..
                    exact (IH (2 * (lines.length + 1 - (i + 1)) + 1) (by omega)).1
                      lines _ p _ f g (by omega) (by omega) (by omega)
                · exact (IH (2 * (lines.length + 1 - (i + 1)) + 1) (by omega)).1
                    lines (i + 1) p _ f g (Nat.le_refl _) (by omega) (by omega)
              · exact (IH (2 * (lines.length + 1 - (i + 1)) + 1) (by omega)).1
                  lines (i + 1) p _ f g (Nat.le_refl _) (by omega) (by omega)
            · exact (IH (2 * (lines.length + 1 - (i + 1)) + 1) (by omega)).1
                lines (i + 1) p _ f g (Nat.le_refl _) (by omega) (by omega)
  · rcases Nat.lt_or_ge i lines.length with hi | hi
    case inr => rw [listLoop_oob f lines i d acc hi, listLoop_oob g lines i d acc hi]
    have hLi : lines.length + 1 - i = lines.length - i + 1 := by omega
    cases f with
    | zero => omega
    | succ f =>
    cases g with
    | zero => omega
    | succ g =>
    simp only [_parse_list_loop, if_pos hi]
    split
    · exact (IH (2 * (lines.length + 1 - (i + 1))) (by omega)).2.1
        lines (i + 1) d acc f g (Nat.le_refl _) (by omega) (by omega)
    · split
      · rfl
      · split
        · exact (IH (2 * (lines.length + 1 - (i + 1))) (by omega)).2.1
            lines (i + 1) d acc f g (Nat.le_refl _) (by omega) (by omega)
        · split
          · split
            · rename_i k v heq
              have hr : _collect_item f lines (i + 1)
                  (_get_indent (lines.getD i "")) [(k, parseScalar v)] =
                  _collect_item g lines (i + 1)
                    (_get_indent (lines.getD i "")) [(k, parseScalar v)] :=
                (IH (2 * (lines.length + 1 - (i + 1))) (by omega)).2.2
                  lines (i + 1) _ _ f g (Nat.le_refl _) (by omega) (by omega)
              rw [hr]
              have hr2 : i + 1 ≤ (_collect_item g lines (i + 1)
                  (_get_indent (lines.getD i "")) [(k, parseScalar v)]).2 :=
                (loops_ge g).2.2 ..
              exact (IH (2 * (lines.length + 1 - (i + 1))) (by omega)).2.1
                lines _ d _ f g (by omega) (by omega) (by omega)
            · exact (IH (2 * (lines.length + 1 - (i + 1))) (by omega)).2.1
                lines (i + 1) d _ f g (Nat.le_refl _) (by omega) (by omega)
          · rfl
  · rcases Nat.lt_or_ge j lines.length with hj | hj
    case inr => rw [collect_oob f lines j d obj hj, collect_oob g lines j d obj hj]
    have hLj : lines.length + 1 - j = lines.length - j + 1 := by omega
    cases f with
    | zero => omega
    | succ f =>
    cases g with
    | zero => omega
    | succ g =>
    simp only [_collect_item, if_pos hj]
    split
    · exact (IH (2 * (lines.length + 1 - (j + 1))) (by omega)).2.2
        lines (j + 1) d obj f g (Nat.le_refl _) (by omega) (by omega)
    · split
      · rfl
      · split
        · rfl
        · split
          · exact (IH (2 * (lines.length + 1 - (j + 1))) (by omega)).2.2
              lines (j + 1) d obj f g (Nat.le_refl _) (by omega) (by omega)
          · split
            · have hnj : j + 1 ≤ skipBlanks lines.length lines (j + 1) :=
                skipBlanks_ge ..
              split
              · have hr : _parse_list_loop f lines
                    (skipBlanks lines.length lines (j + 1))
                    (_get_indent (lines.getD
                      (skipBlanks lines.length lines (j + 1)) "")) [] =
                  _parse_list_loop g lines
                    (skipBlanks lines.length lines (j + 1))
                    (_get_indent (lines.getD
                      (skipBlanks lines.length lines (j + 1)) "")) [] :=
                  (IH (2 * (lines.length + 1 -
                      (skipBlanks lines.length lines (j + 1)))) (by omega)).2.1
                    lines _ _ [] f g (Nat.le_refl _) (by omega) (by omega)
                rw [hr]
                have hr2 : skipBlanks lines.length lines (j + 1) ≤
                    (_parse_list_loop g lines
                      (skipBlanks lines.length lines (j + 1))
                      (_get_indent (lines.getD
                        (skipBlanks lines.length lines (j + 1)) "")) []).2 :=
                  (loops_ge g).2.1 ..
                exact (IH (2 * (lines.length + 1 - (j + 1))) (by omega)).2.2
                  lines _ d _ f g (by omega) (by omega) (by omega)
              · exact (IH (2 * (lines.length + 1 - (j + 1))) (by omega)).2.2
                  lines (j + 1) d _ f g (Nat.le_refl _) (by omega) (by omega)
            · exact (IH (2 * (lines.length + 1 - (j + 1))) (by omega)).2.2
                lines (j + 1) d _ f g (Nat.le_refl _) (by omega) (by omega)

/-- Any sufficient fuel computes `parseBlockRun`. -/
theorem parseBlockRun_eq_of_fuel (lines : List String) (i : Nat) (p : Int)
    (acc : List (String × Value)) (f : Nat)
    (h : 2 * (lines.length + 1 - i) + 1 ≤ f) :
    _parse_block_loop f lines i p acc = parseBlockRun lines i p acc :=
  (loops_stable (parseFuel lines.length)).1 lines i p acc f
    (parseFuel lines.length) (by unfold parseFuel; omega) h
    (by unfold parseFuel; omega)

/-- Any sufficient fuel computes `parseListRun`. -/
theorem parseListRun_eq_of_fuel (lines : List String) (i d : Nat)
    (acc : List Value) (f : Nat) (h : 2 * (lines.length + 1 - i) ≤ f) :
    _parse_list_loop f lines i d acc = parseListRun lines i d acc :=
  (loops_stable (parseFuel lines.length)).2.1 lines i d acc f
    (parseFuel lines.length) (by unfold parseFuel; omega) h
    (by unfold parseFuel; omega)

/-- One unfolding step: the block loop skips a blank or comment line
whatever its indentation. -/
theorem blockLoop_skip (f : Nat) (lines : List String) (i : Nat) (p : Int)
    (acc : List (String × Value)) (hi : i < lines.length)
    (hbc : pyStrip (lines.getD i "") = "" ∨
      pyStartsWith (pyStrip (lines.getD i "")) "#" = true) :
    _parse_block_loop (f + 1) lines i p acc =
      _parse_block_loop f lines (i + 1) p acc := by
  simp only [_parse_block_loop]
  rw [if_pos hi, if_pos hbc]

/-- One unfolding step: the list loop skips a blank or comment line
whatever its indentation. -/
theorem listLoop_skip (f : Nat) (lines : List String) (i d : Nat)
    (acc : List Value) (hi : i < lines.length)
    (hbc : pyStrip (lines.getD i "") = "" ∨
      pyStartsWith (pyStrip (lines.getD i "")) "#" = true) :
    _parse_list_loop (f + 1) lines i d acc =
      _parse_list_loop f lines (i + 1) d acc := by
  simp only [_parse_list_loop]
  rw [if_pos hi, if_pos hbc]

/-- One unfolding step: on a dash line deeper than the parent indent the
block loop hands the whole block to the list parser, dropping the
accumulated entries. -/
theorem blockLoop_dash (f : Nat) (lines : List String) (i : Nat) (p : Int)
    (acc : List (String × Value)) (hi : i < lines.length)
    (hbc : ¬(pyStrip (lines.getD i "") = "" ∨
      pyStartsWith (pyStrip (lines.getD i "")) "#" = true))
    (hgt : p < (_get_indent (lines.getD i "") : Int))
    (hdash : pyStartsWith (pyStrip (lines.getD i "")) "- " = true) :
    _parse_block_loop (f + 1) lines i p acc =
      _parse_list_loop f lines i (_get_indent (lines.getD i "")) [] := by
  simp only [_parse_block_loop]
  rw [if_pos hi, if_neg hbc, if_neg (not_le.mpr hgt), if_pos hdash]

/-! ### Claim C1 -/

/-- Discriminator for the `Value.map` constructor. -/
def Value.isMap : Value → Bool
  | .map _ => true
  | _ => false

/-- C1, counterexample: on the input `"- a"` (whose first line is a dash
line) `parse` returns a Sequence, not a Mapping, contradicting "the root
Value produced by parse is always a Mapping, never a Sequence or a
scalar". -/
theorem C1_counterexample :
    Value.isMap (parse_yaml "- a") = false ∧
    parse_yaml "- a" = Value.seq [Value.str "a"] :=
  ⟨rfl, rfl⟩

/-- C1, amended: for every input text, the root value produced by
`parse_yaml` is always either a Mapping or a Sequence, never a scalar;
it is a Sequence when the block parser reaches a dash line at the top
level (for example `parse_yaml "- a"`). -/
theorem C1_root_map_or_seq (text : String) :
    (∃ entries, parse_yaml text = Value.map entries) ∨
    (∃ items, parse_yaml text = Value.seq items) := by
  unfold parse_yaml parse_yamlF _parse_block
  exact blockLoop_shape ..

/-! ### Claim C2 -/

/-- C2, counterexample: in the block `"a:\n  b: 1\n  - x"` the first
non-blank child line of the nested block (`b: 1`) is not a dash line,
yet the key `a` resolves to a Sequence, and the pair `b ↦ "1"` already
collected in that block's Mapping is discarded because of the dash line
appearing later in the same block — contradicting both the
"determined solely by the first non-blank child line" and the
"already collected pairs are not affected" parts of the claim. -/
theorem C2_counterexample :
    parse_yaml "a:\n  b: 1\n  - x" =
      Value.map [("a", Value.seq [Value.str "x"])] :=
  rfl

/-- C2, amended: the Mapping/Sequence decision is made at every line of
a block, not once per block: as soon as the block parser reaches any
non-blank, non-comment dash line deeper than the parent indent — first
child or not — it returns the list parser's result from that line and
the key/value pairs already collected in the block (`acc`) are
discarded (the right-hand side does not depend on `acc`). -/
theorem C2_dash_line_turns_block_into_list (lines : List String) (i : Nat)
    (p : Int) (acc : List (String × Value)) (hi : i < lines.length)
    (hbc : ¬(pyStrip (lines.getD i "") = "" ∨
      pyStartsWith (pyStrip (lines.getD i "")) "#" = true))
    (hgt : p < (_get_indent (lines.getD i "") : Int))
    (hdash : pyStartsWith (pyStrip (lines.getD i "")) "- " = true) :
    parseBlockRun lines i p acc =
      parseListRun lines i (_get_indent (lines.getD i "")) [] :=
  (blockLoop_dash (2 * (lines.length + 1)) lines i p acc hi hbc hgt
    hdash).trans
    (parseListRun_eq_of_fuel lines i _ [] (2 * (lines.length + 1))
      (by omega))

/-- Witness for C2: a concrete application with a nonempty accumulated
mapping, which the dash line discards. -/
theorem C2_dash_line_turns_block_into_list_witness :
    parseBlockRun ["- x"] 0 (-1) [("b", Value.str "1")] =
      parseListRun ["- x"] 0 0 [] :=
  C2_dash_line_turns_block_into_list ["- x"] 0 (-1) [("b", Value.str "1")]
    (by decide) (by decide) (by decide) (by decide)

/-! ### Claim C3 -/

/-- A character that is not a quote character. -/
def noQuoteChar (c : Char) : Bool := !(c = dquote || c = squote)

/-- A character that is neither a quote character nor a comma. -/
def plainChar (c : Char) : Bool := !(c = dquote || c = squote || c = ',')

/-- Join fragments with single commas (the inverse image used to state
what `_split_array` does to comma-separated input). -/
def joinComma : List String → String
  | [] => ""
  | [f] => f
  | f :: g :: rest => f ++ "," ++ joinComma (g :: rest)

/-- Appending two strings concatenates their character lists. -/
theorem string_data_append (a b : String) : (a ++ b).data = a.data ++ b.data := by
  cases a
  cases b
  rfl

/-- A string whose first character is not whitespace does not strip to
the empty string. -/
theorem pyStrip_ne_empty_of_head (c : Char) (l : List Char)
    (hc : isPySpace c = false) : ¬ pyStrip ⟨c :: l⟩ = "" := by
  intro h
  have hdata : ((List.dropWhile isPySpace (c :: l)).reverse.dropWhile
      isPySpace).reverse = [] := congrArg String.data h
  rw [List.dropWhile_cons] at hdata
  rw [hc] at hdata
  simp only [Bool.false_eq_true, if_false, List.reverse_eq_nil_iff,
    List.dropWhile_eq_nil_iff, List.mem_reverse] at hdata
  have hcs := hdata c (by simp)
  rw [hc] at hcs
  exact Bool.false_ne_true hcs

/-- Inside an active quote `q`, every character other than `q` —
commas included — is appended to the current fragment, never a split
point. -/
theorem splitAux_quoted (q : Char) : ∀ (cs rest : List Char)
    (items : List String) (cur : List Char), (∀ c ∈ cs, ¬ c = q) →
    splitAux items cur (some q) (cs ++ rest) =
      splitAux items (cur ++ cs) (some q) rest := by
  intro cs
  induction cs with
  | nil => intro rest items cur _; simp
  | cons c cs ih =>
    intro rest items cur h
    show splitAux items cur (some q) (c :: (cs ++ rest)) = _
    simp only [splitAux]
    rw [if_neg (fun hx => Option.noConfusion hx.2),
      if_neg (fun hx => h c (by simp) (Option.some.inj hx)),
      if_neg (fun hx => Option.noConfusion hx.2)]
    rw [ih rest items (cur ++ [c]) (fun x hx => h x (by simp [hx]))]
    simp

/-- Outside a quote, a run of plain characters (no quotes, no commas)
is appended to the current fragment unchanged. -/
theorem splitAux_plain : ∀ (cs rest : List Char) (items : List String)
    (cur : List Char), (∀ c ∈ cs, plainChar c = true) →
    splitAux items cur none (cs ++ rest) =
      splitAux items (cur ++ cs) none rest := by
  intro cs
  induction cs with
  | nil => intro rest items cur _; simp
  | cons c cs ih =>
    intro rest items cur h
    have hc := h c (by simp)
    simp only [plainChar, Bool.not_eq_eq_eq_not, Bool.not_true, Bool.or_eq_false_iff,
      decide_eq_false_iff_not] at hc
    obtain ⟨⟨hdq, hsq⟩, hcomma⟩ := hc
    show splitAux items cur none (c :: (cs ++ rest)) = _
    simp only [splitAux]
    rw [if_neg (fun hx => hx.1.elim hdq hsq),
      if_neg (fun hx => Option.noConfusion hx),
      if_neg (fun hx => hcomma hx.1)]
    rw [ih rest items (cur ++ [c]) (fun x hx => h x (by simp [hx]))]
    simp

/-- C3, counterexample: `_split_array "a,,b"` keeps the blank middle
fragment, contradicting "every non-trailing fragment is kept only if it
is non-blank after trimming". -/
theorem C3_counterexample : _split_array "a,,b" = ["a", "", "b"] ∧
    pyStrip "" = "" :=
  ⟨rfl, rfl⟩

/-- After the plain run, an exposed leading comma outside quotes ends
the current fragment. -/
theorem splitAux_comma (items : List String) (cur : List Char)
    (rest : List Char) :
    splitAux items cur none (',' :: rest) =
      splitAux (items ++ [⟨cur⟩]) [] none rest := by
  simp only [splitAux]
  split
  · rename_i hx; exact absurd hx (by decide)
  · split
    · rename_i hx; exact absurd hx (by decide)
    · split
      · rfl
      · rename_i hx; exact absurd (by decide) hx

/-- The fragments of a comma-joined list of plain fragments: every
non-trailing fragment is kept unconditionally; the trailing fragment is
kept exactly when non-blank after trimming. -/
theorem splitAux_joinComma : ∀ (fs : List String) (f : String)
    (items : List String),
    (∀ c ∈ f.toList, plainChar c = true) →
    (∀ g ∈ fs, ∀ c ∈ g.toList, plainChar c = true) →
    splitAux items [] none (joinComma (f :: fs)).toList =
      items ++ (if pyStrip ((f :: fs).getLastD "") = "" then
        (f :: fs).dropLast else f :: fs) := by
  intro fs
  induction fs with
  | nil =>
    intro f items hf _
    obtain ⟨lf⟩ := f
    have h1 := splitAux_plain lf [] items [] hf
    simp only [List.append_nil, List.nil_append] at h1
    have hgl : ([(⟨lf⟩ : String)].getLastD "") = (⟨lf⟩ : String) := rfl
    show splitAux items [] none lf = _
    rw [h1, hgl]
    show (if pyStrip ⟨lf⟩ = "" then items else items ++ [(⟨lf⟩ : String)]) = _
    rcases eq_or_ne (pyStrip (⟨lf⟩ : String)) "" with hemp | hemp
    · rw [if_pos hemp, if_pos hemp]
      simp [List.dropLast]
    · rw [if_neg hemp, if_neg hemp]
  | cons g rest ih =>
    intro f items hf hgs
    obtain ⟨lf⟩ := f
    have hdata : (joinComma (⟨lf⟩ :: g :: rest)).toList =
        lf ++ (',' :: (joinComma (g :: rest)).toList) := by
      show ((⟨lf⟩ : String) ++ "," ++ joinComma (g :: rest)).data = _
      rw [string_data_append, string_data_append]
      simp [String.toList]
    rw [hdata, splitAux_plain lf (',' :: (joinComma (g :: rest)).toList)
      items [] hf, List.nil_append, splitAux_comma]
    have hih := ih g (items ++ [(⟨lf⟩ : String)]) (hgs g (by simp))
      (fun x hx => hgs x (by simp [hx]))
    rw [hih]
    have hlast : (g :: rest).getLastD "" =
        ((⟨lf⟩ : String) :: g :: rest).getLastD "" := by
      simp [List.getLastD_cons]
    rw [← hlast]
    split
    · simp [List.dropLast]
    · simp

/-- C3, amended: in the quote-aware comma split, commas inside an active
quoted span are never split points (a fully quoted fragment containing
commas is returned whole); non-trailing fragments are always kept —
blank or not — while the trailing fragment is kept exactly when it is
non-blank after trimming. -/
theorem C3_split_array_fragments :
    (∀ s : String, (∀ c ∈ s.toList, noQuoteChar c = true) →
      _split_array ((⟨[dquote]⟩ : String) ++ s ++ ⟨[dquote]⟩) =
        [(⟨[dquote]⟩ : String) ++ s ++ ⟨[dquote]⟩]) ∧
    (∀ (f : String) (fs : List String),
      (∀ g ∈ f :: fs, ∀ c ∈ g.toList, plainChar c = true) →
      _split_array (joinComma (f :: fs)) =
        if pyStrip ((f :: fs).getLastD "") = "" then (f :: fs).dropLast
        else f :: fs) := by
  constructor
  · intro s hs
    obtain ⟨l⟩ := s
    have hl : ∀ c ∈ l, ¬ c = dquote := by
      intro c hcl hceq
      have h2 := hs c hcl
      rw [hceq] at h2
      simp [noQuoteChar] at h2
    show splitAux [] [] none (dquote :: (l ++ [dquote])) = _
    simp only [splitAux]
    split
    case isFalse hx => exact absurd (by decide) hx
    rw [splitAux_quoted dquote l [dquote] [] ([] ++ [dquote]) hl]
    show splitAux [] (([] ++ [dquote]) ++ l) (some dquote)
      (dquote :: []) = _
    simp only [splitAux]
    split
    case isTrue hx => exact absurd hx (by decide)
    split
    case isFalse hx => exact absurd (by decide) hx
    simp only [List.nil_append, List.cons_append]
    show splitAux [] (dquote :: (l ++ [dquote])) none [] = _
    simp only [splitAux]
    rw [if_neg (pyStrip_ne_empty_of_head dquote (l ++ [dquote]) (by decide))]
    rfl
  · intro f fs h
    exact splitAux_joinComma fs f [] (h f (by simp))
      (fun g hg => h g (by simp [hg]))

/-- Witness for C3: a quoted fragment containing a comma survives as a
single element, and the list `["a", "", "b"]` — whose middle fragment
is blank and whose last is not — round-trips. -/
theorem C3_split_array_fragments_witness :
    _split_array ((⟨[dquote]⟩ : String) ++ "x,y" ++ ⟨[dquote]⟩) =
      [(⟨[dquote]⟩ : String) ++ "x,y" ++ ⟨[dquote]⟩] ∧
    _split_array (joinComma ["a", "", "b"]) = ["a", "", "b"] :=
  ⟨C3_split_array_fragments.1 "x,y" (by decide),
   C3_split_array_fragments.2 "a" ["", "b"] (by decide)⟩

/-! ### Claim C4 -/

/-- C4: the parser is total and single-pass.  The embedding's loops are
total Lean functions; this theorem states (i) forward progress — the
next index returned by the block and list loops is never less than the
start index (no backtracking), and (ii) termination — the recursion
stabilises: any fuel of at least `parseFuel` (linear in the number of
lines) computes the very same result, so `parse_yaml` is the limit of
the recursion and is defined for every input text. -/
theorem C4_total_single_pass :
    (∀ (lines : List String) (i : Nat) (p : Int)
      (acc : List (String × Value)) (fuel : Nat),
      i ≤ (_parse_block_loop fuel lines i p acc).2) ∧
    (∀ (lines : List String) (i d : Nat) (acc : List Value) (fuel : Nat),
      i ≤ (_parse_list_loop fuel lines i d acc).2) ∧
    (∀ (text : String) (fuel : Nat),
      parseFuel (pySplitLines text).length ≤ fuel →
      parse_yamlF fuel text = parse_yaml text) := by
  refine ⟨fun lines i p acc fuel => (loops_ge fuel).1 lines i p acc,
    fun lines i d acc fuel => (loops_ge fuel).2.1 lines i d acc,
    fun text fuel h => ?_⟩
  unfold parse_yaml parse_yamlF _parse_block
  exact congrArg Prod.fst
    ((loops_stable (parseFuel (pySplitLines text).length)).1
      (pySplitLines text) 0 (-1) [] fuel
      (parseFuel (pySplitLines text).length)
      (by unfold parseFuel; omega)
      (by unfold parseFuel at h; omega)
      (by unfold parseFuel; omega))

/-- Witness for C4: parsing a concrete two-line document with any
surplus fuel gives the same tree as `parse_yaml`. -/
theorem C4_total_single_pass_witness :
    parse_yamlF 100 "a: 1\n- b" = parse_yaml "a: 1\n- b" :=
  C4_total_single_pass.2.2 "a: 1\n- b" 100 (by decide)

/-! ### Claim C5 -/

/-- C5, counterexample: the fragment `"TRUE"` is the word true in
capital letters, but `_parse_scalar` leaves it as a String instead of
returning `Boolean(true)` — the recognition is not case-insensitive. -/
theorem C5_counterexample :
    parseScalar "TRUE" = Value.str "TRUE" ∧
    parseScalar "TRUE" ≠ Value.bool true :=
  ⟨rfl, fun h => Value.noConfusion h⟩

/-- C5, amended: scalar resolution recognises exactly the four literal
spellings `true`, `True`, `false`, `False`; any other casing (for
example `TRUE`, `FALSE`, `tRue`) is returned as a literal String. -/
theorem C5_bool_literal_exact_forms :
    parseScalar "true" = Value.bool true ∧
    parseScalar "True" = Value.bool true ∧
    parseScalar "false" = Value.bool false ∧
    parseScalar "False" = Value.bool false ∧
    parseScalar "TRUE" = Value.str "TRUE" ∧
    parseScalar "FALSE" = Value.str "FALSE" ∧
    parseScalar "tRue" = Value.str "tRue" :=
  ⟨rfl, rfl, rfl, rfl, rfl, rfl, rfl⟩

/-! ### Claim C6 -/

/-- C6, counterexample: inserting the comment line `"# c"` between
`"a:"` and `"  b: 1"` changes where the block under `a` is parsed: with
the comment, `a` gets the empty string and `b` is attached to the root
mapping, because the empty-value look-ahead skips only blank lines and
treats the comment (indent 0, not greater than 0) as the next content
line — so a comment line's presence does change indent-based block
boundaries. -/
theorem C6_counterexample :
    parse_yaml "a:\n  b: 1" =
      Value.map [("a", Value.map [("b", Value.str "1")])] ∧
    parse_yaml "a:\n# c\n  b: 1" =
      Value.map [("a", Value.str ""), ("b", Value.str "1")] :=
  ⟨rfl, rfl⟩

/-- C6, amended: in the main scan loops of the block parser and of the
list parser, a blank or comment line is skipped regardless of its
indentation and never terminates the block or the list (the parse from
such a line equals the parse from the next line); only the empty-value
look-ahead, which skips blank lines but not comments, can let a comment
line influence block boundaries. -/
theorem C6_blank_comment_skipped :
    (∀ (lines : List String) (i : Nat) (p : Int)
      (acc : List (String × Value)), i < lines.length →
      (pyStrip (lines.getD i "") = "" ∨
        pyStartsWith (pyStrip (lines.getD i "")) "#" = true) →
      parseBlockRun lines i p acc = parseBlockRun lines (i + 1) p acc) ∧
    (∀ (lines : List String) (i d : Nat) (acc : List Value),
      i < lines.length →
      (pyStrip (lines.getD i "") = "" ∨
        pyStartsWith (pyStrip (lines.getD i "")) "#" = true) →
      parseListRun lines i d acc = parseListRun lines (i + 1) d acc) := by
  constructor
  · intro lines i p acc hi hbc
    exact (blockLoop_skip (2 * (lines.length + 1)) lines i p acc hi
      hbc).trans
      (parseBlockRun_eq_of_fuel lines (i + 1) p acc
        (2 * (lines.length + 1)) (by omega))
  · intro lines i d acc hi hbc
    exact (listLoop_skip (2 * (lines.length + 1)) lines i d acc hi
      hbc).trans
      (parseListRun_eq_of_fuel lines (i + 1) d acc
        (2 * (lines.length + 1)) (by omega))

/-- Witness for C6: a deeply indented comment inside a list and a blank
line inside a block are skipped. -/
theorem C6_blank_comment_skipped_witness :
    parseBlockRun ["", "a: 1"] 0 (-1) [] = parseBlockRun ["", "a: 1"] 1 (-1) [] ∧
    parseListRun ["      # deep comment", "- a"] 0 0 [] =
      parseListRun ["      # deep comment", "- a"] 1 0 [] :=
  ⟨C6_blank_comment_skipped.1 ["", "a: 1"] 0 (-1) [] (by decide) (by decide),
   C6_blank_comment_skipped.2 ["      # deep comment", "- a"] 0 0 []
     (by decide) (by decide)⟩

/-! ### Claim C7 -/

/-- C7: duplicate keys at the same nesting level silently overwrite —
`insertKV` (the embedding of Python dict assignment used for every
`key: value` line of a block) always makes the key map to the newest
value, and concretely a block with two `a:` lines keeps only the second
value. -/
theorem C7_duplicate_keys_last_wins :
    (∀ (entries : List (String × Value)) (k : String) (v : Value),
      lookupKV (insertKV entries k v) k = some v) ∧
    parse_yaml "a: 1\na: 2" = Value.map [("a", Value.str "2")] := by
  constructor
  · intro entries k v
    induction entries with
    | nil => simp [insertKV, lookupKV]
    | cons head rest ih =>
      obtain ⟨k', v'⟩ := head
      by_cases h : k' = k
      · simp [insertKV, lookupKV, h]
      · simp [insertKV, lookupKV, h, ih]
  · rfl

/-! ### Claim C8 -/

/-- C8: the documented list-of-objects example parses to a Mapping whose
single key `items` holds a Sequence of the two expected Mappings in
order. -/
theorem C8_items_example :
    parse_yaml "items:\n  - title: X\n    link: /x\n  - title: Y\n    link: /y\n" =
      Value.map [("items", Value.seq
        [Value.map [("title", Value.str "X"), ("link", Value.str "/x")],
         Value.map [("title", Value.str "Y"), ("link", Value.str "/y")]])] :=
  rfl

/-! ### Claim C9 -/

/-- C9: when an item's `link` field is missing, empty, or a string not
beginning with `/`, `generate_page` skips the item — it returns `None`
having performed no effect at all (no directory creation, no file
write, not even a diagnostic message). -/
theorem C9_bad_link_skipped (fs : List (String × String)) (repoRoot : String)
    (item : List (String × Value)) (templateName : String)
    (h : lookupKV item "link" = none ∨
      ∃ s, lookupKV item "link" = some (Value.str s) ∧
        pyStartsWith s "/" = false) :
    generate_page fs repoRoot item templateName = .ok (none, []) := by
  rcases h with h | ⟨s, hs, hns⟩
  · simp only [generate_page, pyGet]
    rw [h]
    rfl
  · simp only [generate_page, pyGet]
    rw [hs]
    rcases eq_or_ne s "" with he | he
    · subst he
      rfl
    · rw [if_neg (by simp [pyTruthy, he])]
      show (if pyStartsWith s "/" = false then Except.ok (none, []) else _) = _
      rw [if_pos hns]

/-- Witness for C9: a relative link and a missing link are both
skipped without effects. -/
theorem C9_bad_link_skipped_witness :
    generate_page [] "/repo" [("link", Value.str "about")] "case-study" =
      .ok (none, []) ∧
    generate_page [] "/repo" [("title", Value.str "T")] "case-study" =
      .ok (none, []) :=
  ⟨C9_bad_link_skipped [] "/repo" [("link", Value.str "about")] "case-study"
      (.inr ⟨"about", rfl, rfl⟩),
   C9_bad_link_skipped [] "/repo" [("title", Value.str "T")] "case-study"
      (.inl rfl)⟩

/-! ### Claim C10 -/

/-- C10: a fragment consisting of exactly one double-quote (or one
single-quote) character passes both the starts-with and the ends-with
test of the surrounding-quote check, so `_parse_scalar` strips it away
entirely and returns the empty String. -/
theorem C10_lone_quote_empty_string :
    parseScalar "\"" = Value.str "" ∧
    parseScalar (String.mk [squote]) = Value.str "" :=
  ⟨rfl, rfl⟩

end Build
